import Mathlib

/-!
Shallow embedding of the wikitext tokenizer (final version of
src/tokenizer.ts, the one exercised by tokenizer.test.ts): a single-pass
character FSM with one-character pushback.  TS strings are modelled as
`List Char`; the driving `while` loop is modelled with explicit fuel, and
we prove that `2 * length + 1` fuel always completes the run.
-/

namespace Wikitext

-- Character constants (source block `const EOLChar = '\n'; ...`).
def EOLChar : Char := '\n'

def SpaceChar : Char := ' '

def SingleQuoteChar : Char := '\x27'

def BraceOpenChar : Char := '\x7b'

def BraceCloseChar : Char := '\x7d'

def AngleOpenChar : Char := '<'

def AngleCloseChar : Char := '>'

def BracketOpenChar : Char := '['

def BracketCloseChar : Char := ']'

def PipeChar : Char := '|'

def DashChar : Char := '-'

def HashChar : Char := '#'

def SlashChar : Char := '/'

def ExclamationChar : Char := '!'

def ColonChar : Char := ':'

def PlusChar : Char := '+'

-- Marker constants.
def BoldMarker : List Char := [SingleQuoteChar, SingleQuoteChar, SingleQuoteChar]

def ItalicMarker : List Char := [SingleQuoteChar, SingleQuoteChar]

def EndTagBeginMarker : List Char := [AngleOpenChar, SlashChar]

def CommentBeginMarker : List Char := [AngleOpenChar, ExclamationChar, DashChar, DashChar]

def CommentEndMarker : List Char := [DashChar, DashChar, AngleCloseChar]

def TemplateBeginMarker : List Char := [BraceOpenChar, BraceOpenChar]

def TemplateEndMarker : List Char := [BraceCloseChar, BraceCloseChar]

def TableBeginMarker : List Char := [BraceOpenChar, PipeChar]

def TableEndMarker : List Char := [PipeChar, BraceCloseChar]

/-- Recursion core of `countSubstring`; the fuel only serves structural
termination (each step drops at least one character, so `text.length` fuel is
always enough, see `countSubstringAux_fuel`). -/
def countSubstringAux : Nat → List Char → List Char → Nat
  | 0, _, _ => 0
  | _ + 1, _, [] => 0
  | _ + 1, [], _ :: _ => 0
  | fuel + 1, c :: rest, s₁ :: s₂ =>
    if (s₁ :: s₂).isPrefixOf (c :: rest) then
      countSubstringAux fuel ((c :: rest).drop (s₁ :: s₂).length) (s₁ :: s₂) + 1
    else
      countSubstringAux fuel rest (s₁ :: s₂)

/-- `countSubstring(text, substr)`: number of (non-overlapping, leftmost-first)
occurrences of `substr` in `text`, mirroring the `indexOf` loop which resumes
the search at `pos + substr.length`. -/
def countSubstring (text substr : List Char) : Nat :=
  countSubstringAux text.length text substr

-- Token kinds produced by the final tokenizer (enum TokenType).
inductive TokenType where
  | TEXT
  | EOL
  | ITALIC
  | BOLD
  | OPEN_START_TAG
  | OPEN_END_TAG
  | CLOSE_TAG
  | TAG_NAME
  | COMMENT_BEGIN
  | COMMENT_END
  | TEMPLATE_BEGIN
  | TEMPLATE_END
  | TABLE_BEGIN
  | TABLE_END
  | TABLE_CAPTION
  | TABLE_ROW
  | LINK_BEGIN
  | LINK_END
  | OPEN_BRACKET
  | CLOSE_BRACKET
  | PIPE
  | EXCLAMATION_MARK
  | SPACES
  | COLON
  | DASHES
  | HASHES
  deriving DecidableEq, Repr

-- class Token: immutable (type, value, line) triple.
structure Token where
  type : TokenType
  value : List Char
  lineNum : Int
  deriving DecidableEq, Repr

-- Supported HTML tags (const HtmlTags).
def HtmlTags : List (List Char) :=
  ["h1", "h2", "h3", "h4", "h5", "h6", "p", "br", "hr", "abbr", "b", "bdi",
   "bdo", "blockquote", "cite", "code", "data", "del", "dfn", "em", "i",
   "ins", "kdb", "mark", "pre", "q", "rp", "rt", "ruby", "s", "samp",
   "small", "strong", "sub", "sup", "time", "u", "var", "wbr", "dl", "dt",
   "dd", "ol", "ul", "li", "div", "span", "table", "td", "tr", "th",
   "caption", "thead", "tfoot", "tbody", "center", "font", "rb", "strike",
   "tt"].map String.toList

-- Wikitext extension tags (const ExtensionTags).
def ExtensionTags : List (List Char) :=
  ["categorytree", "ce", "charinsert", "chem", "gallery", "graph", "hiero",
   "imagemap", "includeonly", "indicator", "inputbox", "mapframe",
   "maplink", "math", "math chem", "noinclude", "nowiki", "onlyinclude",
   "poem", "pre", "ref", "references", "score", "section", "source",
   "syntaxhighlight", "templatedata", "templatestyles",
   "timeline"].map String.toList

/-- `name.trim()`: strip leading and trailing whitespace. -/
def trimChars (s : List Char) : List Char :=
  ((s.dropWhile Char.isWhitespace).reverse.dropWhile Char.isWhitespace).reverse

/-- `normalizeTagName(name) = name.trim().toLowerCase()`. -/
def normalizeTagName (name : List Char) : List Char :=
  (trimChars name).map Char.toLower

def isHtmlTag (s : List Char) : Bool :=
  HtmlTags.contains (normalizeTagName s)

def isExtensionTag (s : List Char) : Bool :=
  ExtensionTags.contains (normalizeTagName s)

def isHtmlOrExtensionTag (s : List Char) : Bool :=
  isHtmlTag s || isExtensionTag s

/-- `isTagPrefix(tags, s)`: the normalized candidate is a string-prefix of
some table entry (`tags.findIndex(tag => tag.startsWith(normalized)) !== -1`). -/
def isTagPrefix (tags : List (List Char)) (s : List Char) : Bool :=
  tags.any (fun tag => (normalizeTagName s).isPrefixOf tag)

def isHtmlTagPrefix (s : List Char) : Bool :=
  isTagPrefix HtmlTags s

def isExtensionTagPrefix (s : List Char) : Bool :=
  isTagPrefix ExtensionTags s

def isHtmlOrExtensionTagPrefix (s : List Char) : Bool :=
  isHtmlTagPrefix s || isExtensionTagPrefix s

-- class Tokenizer: cursor (text, position, line counter) plus the token
-- buffer.  The buffer is kept in reverse order (`push` = cons) because the
-- merge rule looks at the most recent token; `tokenize` reverses at the end.
structure Tokenizer where
  text : List Char
  pos : Nat
  lineNum : Int
  tokensRev : List Token
  deriving DecidableEq, Repr

/-- `storeToken`: append a token, except that a TEXT token directly after a
TEXT token is merged into it (`combineTextTokens`). -/
def Tokenizer.storeToken (tk : Tokenizer) (type : TokenType) (value : List Char) :
    Tokenizer :=
  match tk.tokensRev with
  | last :: rest =>
    if type = TokenType.TEXT ∧ last.type = TokenType.TEXT then
      { tk with tokensRev :=
          Token.mk TokenType.TEXT (last.value ++ value) last.lineNum :: rest }
    else
      { tk with tokensRev := Token.mk type value tk.lineNum :: last :: rest }
  | [] => { tk with tokensRev := [Token.mk type value tk.lineNum] }

/-- `skipAheadBy`: advance the read position (clamped to the text length) and
add the newlines of the consumed span to the line counter. -/
def Tokenizer.skipAheadBy (tk : Tokenizer) (numChars : Nat) : Tokenizer :=
  let prevPos := tk.pos
  let movedPos := tk.pos + numChars
  let newPos := if movedPos > tk.text.length then tk.text.length else movedPos
  { tk with
      pos := newPos
      lineNum := tk.lineNum +
        (countSubstring ((tk.text.take newPos).drop prevPos) [EOLChar] : Int) }

/-- `backUpBy`: move the read position back (clamped at 0 — `Nat` subtraction
models the explicit `if (pos < 0) pos = 0` clamp) and subtract the newlines of
the un-consumed span from the line counter. -/
def Tokenizer.backUpBy (tk : Tokenizer) (numChars : Nat) : Tokenizer :=
  let prevPos := tk.pos
  let newPos := tk.pos - numChars
  { tk with
      pos := newPos
      lineNum := tk.lineNum -
        (countSubstring ((tk.text.take prevPos).drop newPos) [EOLChar] : Int) }

-- The FSM states.  Each state of the source is a class holding a `value`
-- accumulation buffer; here each is a constructor carrying that buffer.
inductive State where
  | textSt (value : List Char)
  | quoteSt (value : List Char)
  | htmlStartSt (value : List Char)
  | htmlEndSt (value : List Char)
  | commentStartSt (value : List Char)
  | angleOpenSt (value : List Char)
  | spaceSt (value : List Char)
  | dashSt (value : List Char)
  | hashSt (value : List Char)
  | braceOpenSt (value : List Char)
  | braceCloseSt (value : List Char)
  | bracketOpenSt (value : List Char)
  | bracketCloseSt (value : List Char)
  | pipeSt (value : List Char)
  deriving DecidableEq, Repr

/-- `QuoteState.storeTokens`: the quote-run rule table. -/
def quoteStoreTokens (tk : Tokenizer) (value : List Char) : Tokenizer :=
  let BoldQuotes := 3
  let ItalicQuotes := 2
  let BoldItalicQuotes := BoldQuotes + ItalicQuotes
  let numQuotes := value.length
  let numPlainTextQuotes :=
    if numQuotes > BoldItalicQuotes then numQuotes - BoldItalicQuotes
    else if numQuotes = BoldQuotes + 1 then 1
    else 0
  let isBold := numQuotes ≥ BoldQuotes
  let isItalic := numQuotes = ItalicQuotes ∨ numQuotes ≥ BoldItalicQuotes
  let tk1 :=
    if numPlainTextQuotes > 0 then
      tk.storeToken TokenType.TEXT (List.replicate numPlainTextQuotes SingleQuoteChar)
    else tk
  let tk2 := if isBold then tk1.storeToken TokenType.BOLD BoldMarker else tk1
  if isItalic then tk2.storeToken TokenType.ITALIC ItalicMarker else tk2

/-- `HtmlStartTagState.tagName`: the value without the leading `<`. -/
def htmlStartTagName (value : List Char) : List Char := value.drop 1

/-- `HtmlEndTagState.tagName`: the value without the leading `</`. -/
def htmlEndTagName (value : List Char) : List Char := value.drop 2

/-- `HtmlStartTagState.storeTokens`. -/
def htmlStartStoreTokens (tk : Tokenizer) (value : List Char) : Tokenizer :=
  if isHtmlOrExtensionTag (htmlStartTagName value) then
    (tk.storeToken TokenType.OPEN_START_TAG [AngleOpenChar]).storeToken
      TokenType.TAG_NAME (normalizeTagName (htmlStartTagName value))
  else
    tk.storeToken TokenType.TEXT value

/-- `HtmlEndTagState.storeTokens`. -/
def htmlEndStoreTokens (tk : Tokenizer) (value : List Char) : Tokenizer :=
  if isHtmlOrExtensionTag (htmlEndTagName value) then
    (tk.storeToken TokenType.OPEN_END_TAG EndTagBeginMarker).storeToken
      TokenType.TAG_NAME (normalizeTagName (htmlEndTagName value))
  else
    tk.storeToken TokenType.TEXT value

/-- `DashState.storeClosingAngle` (value already includes the trailing `>`). -/
def dashStoreClosingAngle (tk : Tokenizer) (value : List Char) : Tokenizer :=
  if CommentEndMarker.isSuffixOf value then
    let leadingDashes := value.take (value.length - CommentEndMarker.length)
    let tk1 :=
      if leadingDashes ≠ [] then tk.storeToken TokenType.DASHES leadingDashes
      else tk
    tk1.storeToken TokenType.COMMENT_END CommentEndMarker
  else
    (tk.storeToken TokenType.DASHES (value.take (value.length - 1))).storeToken
      TokenType.CLOSE_TAG [AngleCloseChar]

/-- `TextState.storeTokens`: flush pending text only when non-empty. -/
def textStoreTokens (tk : Tokenizer) (value : List Char) : Tokenizer :=
  if value.length > 0 then tk.storeToken TokenType.TEXT value else tk

/-- `TextState.next`, including `charTransition` (a `switch` on the character,
modelled as a `match` on character literals) and `processSingleCharacterToken`
(which flushes the pending text, emits the single-character token, and
continues in a fresh text state). -/
def textNext (tk : Tokenizer) (value : List Char) (ch : Char) : Tokenizer × State :=
  match ch with
  | '\x7b' => (textStoreTokens tk value, State.braceOpenSt [ch])
  | '\x7d' => (textStoreTokens tk value, State.braceCloseSt [ch])
  | '[' => (textStoreTokens tk value, State.bracketOpenSt [ch])
  | ']' => (textStoreTokens tk value, State.bracketCloseSt [ch])
  | '<' => (textStoreTokens tk value, State.angleOpenSt [ch])
  | '>' => ((textStoreTokens tk value).storeToken TokenType.CLOSE_TAG [ch], State.textSt [])
  | ' ' => (textStoreTokens tk value, State.spaceSt [ch])
  | '\x27' => (textStoreTokens tk value, State.quoteSt [ch])
  | '|' => (textStoreTokens tk value, State.pipeSt [ch])
  | '!' =>
    ((textStoreTokens tk value).storeToken TokenType.EXCLAMATION_MARK [ch], State.textSt [])
  | ':' => ((textStoreTokens tk value).storeToken TokenType.COLON [ch], State.textSt [])
  | '-' => (textStoreTokens tk value, State.dashSt [ch])
  | '#' => (textStoreTokens tk value, State.hashSt [ch])
  | '\n' => ((textStoreTokens tk value).storeToken TokenType.EOL [ch], State.textSt [])
  | _ => (tk, State.textSt (value ++ [ch]))

/-- `State.next(ch)`: one character step of the FSM.  Returns the updated
tokenizer (token emissions and pushback included) and the next state.  Each
source `switch` on the character is a `match` on character literals. -/
def State.next (st : State) (ch : Char) (tk : Tokenizer) : Tokenizer × State :=
  match st with
  | .textSt value => textNext tk value ch
  | .quoteSt value =>
    match ch with
    | '\x27' => (tk, .quoteSt (value ++ [ch]))
    | _ => ((quoteStoreTokens tk value).backUpBy 1, .textSt [])
  | .htmlStartSt value =>
    if ¬ (isHtmlOrExtensionTagPrefix (htmlStartTagName value ++ [ch]) = true) then
      ((htmlStartStoreTokens tk value).backUpBy 1, .textSt [])
    else (tk, .htmlStartSt (value ++ [ch]))
  | .htmlEndSt value =>
    if ¬ (isHtmlOrExtensionTagPrefix (htmlEndTagName value ++ [ch]) = true) then
      ((htmlEndStoreTokens tk value).backUpBy 1, .textSt [])
    else (tk, .htmlEndSt (value ++ [ch]))
  | .commentStartSt value =>
    if value ++ [ch] = CommentBeginMarker then
      (tk.storeToken TokenType.COMMENT_BEGIN (value ++ [ch]), .textSt [])
    else if ¬ ((value ++ [ch]).isPrefixOf CommentBeginMarker) then
      (tk.backUpBy 1, .textSt value)
    else (tk, .commentStartSt (value ++ [ch]))
  | .angleOpenSt value =>
    match ch with
    | '/' => (tk, .htmlEndSt (value ++ [ch]))
    | '!' => (tk, .commentStartSt (value ++ [ch]))
    | _ =>
      if isHtmlOrExtensionTagPrefix [ch] then (tk, .htmlStartSt (value ++ [ch]))
      else ((tk.storeToken TokenType.TEXT value).backUpBy 1, .textSt [])
  | .spaceSt value =>
    match ch with
    | ' ' => (tk, .spaceSt (value ++ [ch]))
    | _ => ((tk.storeToken TokenType.SPACES value).backUpBy 1, .textSt [])
  | .dashSt value =>
    match ch with
    | '>' => (dashStoreClosingAngle tk (value ++ [ch]), .textSt [])
    | '-' => (tk, .dashSt (value ++ [ch]))
    | _ => ((tk.storeToken TokenType.DASHES value).backUpBy 1, .textSt [])
  | .hashSt value =>
    match ch with
    | '#' => (tk, .hashSt (value ++ [ch]))
    | _ => ((tk.storeToken TokenType.HASHES value).backUpBy 1, .textSt [])
  | .braceOpenSt value =>
    match ch with
    | '|' => (tk.storeToken TokenType.TABLE_BEGIN (value ++ [ch]), .textSt [])
    | '\x7b' => (tk.storeToken TokenType.TEMPLATE_BEGIN (value ++ [ch]), .textSt [])
    | _ => (tk.backUpBy 1, .textSt value)
  | .braceCloseSt value =>
    match ch with
    | '\x7d' => (tk.storeToken TokenType.TEMPLATE_END (value ++ [ch]), .textSt [])
    | _ => (tk.backUpBy 1, .textSt value)
  | .bracketOpenSt value =>
    match ch with
    | '[' => (tk.storeToken TokenType.LINK_BEGIN (value ++ [ch]), .textSt [])
    | _ => ((tk.storeToken TokenType.OPEN_BRACKET value).backUpBy 1, .textSt [])
  | .bracketCloseSt value =>
    match ch with
    | ']' => (tk.storeToken TokenType.LINK_END (value ++ [ch]), .textSt [])
    | _ => ((tk.storeToken TokenType.CLOSE_BRACKET value).backUpBy 1, .textSt [])
  | .pipeSt value =>
    match ch with
    | '\x7d' => (tk.storeToken TokenType.TABLE_END (value ++ [ch]), .textSt [])
    | '+' => (tk.storeToken TokenType.TABLE_CAPTION (value ++ [ch]), .textSt [])
    | '-' => (tk.storeToken TokenType.TABLE_ROW (value ++ [ch]), .textSt [])
    | _ => ((tk.storeToken TokenType.PIPE [PipeChar]).backUpBy 1, .textSt [])

/-- `State.terminate()`: flush the active state's pending token(s) at end of
input. -/
def State.terminate (st : State) (tk : Tokenizer) : Tokenizer :=
  match st with
  | .textSt value => textStoreTokens tk value
  | .quoteSt value => quoteStoreTokens tk value
  | .htmlStartSt value => htmlStartStoreTokens tk value
  | .htmlEndSt value => htmlEndStoreTokens tk value
  | .commentStartSt value => textStoreTokens tk value
  | .angleOpenSt value => tk.storeToken TokenType.TEXT value
  | .spaceSt value => tk.storeToken TokenType.SPACES value
  | .dashSt value => tk.storeToken TokenType.DASHES value
  | .hashSt value => tk.storeToken TokenType.HASHES value
  | .braceOpenSt value => textStoreTokens tk value
  | .braceCloseSt value => textStoreTokens tk value
  | .bracketOpenSt value => tk.storeToken TokenType.OPEN_BRACKET value
  | .bracketCloseSt value => tk.storeToken TokenType.CLOSE_BRACKET value
  | .pipeSt _ => tk.storeToken TokenType.PIPE [PipeChar]

/-- The driving loop of `Tokenizer.tokenize`, with explicit fuel (one unit per
iteration).  `runFuel_complete` below shows `2 * length + 1` fuel always
reaches the end of the input, so the fuel never actually runs out. -/
def runFuel : Nat → Tokenizer → State → Tokenizer × State
  | 0, tk, st => (tk, st)
  | fuel + 1, tk, st =>
    if tk.pos < tk.text.length then
      let ch := tk.text.getD tk.pos SpaceChar
      let tk1 := tk.skipAheadBy 1
      let stepped := st.next ch tk1
      runFuel fuel stepped.1 stepped.2
    else (tk, st)

def initTokenizer (text : List Char) : Tokenizer :=
  Tokenizer.mk text 0 1 []

/-- `tokenize(text)`: drive the FSM over the whole input, give the final state
a chance to store its token, and return the accumulated sequence. -/
def tokenize (text : List Char) : List Token :=
  let result := runFuel (2 * text.length + 1) (initTokenizer text) (State.textSt [])
  ((result.2.terminate result.1).tokensRev).reverse

/-- Concatenation of the token values, in output order. -/
def joinValues (tokens : List Token) : List Char :=
  (tokens.map Token.value).flatten

/-- Concatenation of the values of a reversed buffer (newest first). -/
def joinRev : List Token → List Char
  | [] => []
  | t :: ts => joinRev ts ++ t.value

def State.isTextSt : State → Bool
  | .textSt _ => true
  | _ => false

/-! ### Basic lemmas about the cursor and the token buffer -/

@[simp]
theorem storeToken_text (tk : Tokenizer) (ty : TokenType) (v : List Char) :
    (tk.storeToken ty v).text = tk.text := by
  unfold Tokenizer.storeToken
  split
  · split <;> rfl
  · rfl

@[simp]
theorem storeToken_pos (tk : Tokenizer) (ty : TokenType) (v : List Char) :
    (tk.storeToken ty v).pos = tk.pos := by
  unfold Tokenizer.storeToken
  split
  · split <;> rfl
  · rfl

@[simp]
theorem storeToken_lineNum (tk : Tokenizer) (ty : TokenType) (v : List Char) :
    (tk.storeToken ty v).lineNum = tk.lineNum := by
  unfold Tokenizer.storeToken
  split
  · split <;> rfl
  · rfl

@[simp]
theorem backUpBy_text (tk : Tokenizer) (n : Nat) : (tk.backUpBy n).text = tk.text := rfl

@[simp]
theorem backUpBy_pos (tk : Tokenizer) (n : Nat) : (tk.backUpBy n).pos = tk.pos - n := rfl

@[simp]
theorem backUpBy_tokensRev (tk : Tokenizer) (n : Nat) :
    (tk.backUpBy n).tokensRev = tk.tokensRev := rfl

@[simp]
theorem skipAheadBy_text (tk : Tokenizer) (n : Nat) : (tk.skipAheadBy n).text = tk.text := rfl

@[simp]
theorem skipAheadBy_tokensRev (tk : Tokenizer) (n : Nat) :
    (tk.skipAheadBy n).tokensRev = tk.tokensRev := rfl

theorem skipAheadBy_pos (tk : Tokenizer) (n : Nat) :
    (tk.skipAheadBy n).pos = min (tk.pos + n) tk.text.length := by
  unfold Tokenizer.skipAheadBy
  dsimp only
  split <;> omega

@[simp]
theorem quoteStoreTokens_text (tk : Tokenizer) (v : List Char) :
    (quoteStoreTokens tk v).text = tk.text := by
  unfold quoteStoreTokens
  dsimp only
  split_ifs <;> simp

@[simp]
theorem quoteStoreTokens_pos (tk : Tokenizer) (v : List Char) :
    (quoteStoreTokens tk v).pos = tk.pos := by
  unfold quoteStoreTokens
  dsimp only
  split_ifs <;> simp

@[simp]
theorem quoteStoreTokens_lineNum (tk : Tokenizer) (v : List Char) :
    (quoteStoreTokens tk v).lineNum = tk.lineNum := by
  unfold quoteStoreTokens
  dsimp only
  split_ifs <;> simp

@[simp]
theorem htmlStartStoreTokens_text (tk : Tokenizer) (v : List Char) :
    (htmlStartStoreTokens tk v).text = tk.text := by
  unfold htmlStartStoreTokens
  split_ifs <;> simp

@[simp]
theorem htmlStartStoreTokens_pos (tk : Tokenizer) (v : List Char) :
    (htmlStartStoreTokens tk v).pos = tk.pos := by
  unfold htmlStartStoreTokens
  split_ifs <;> simp

@[simp]
theorem htmlStartStoreTokens_lineNum (tk : Tokenizer) (v : List Char) :
    (htmlStartStoreTokens tk v).lineNum = tk.lineNum := by
  unfold htmlStartStoreTokens
  split_ifs <;> simp

@[simp]
theorem htmlEndStoreTokens_text (tk : Tokenizer) (v : List Char) :
    (htmlEndStoreTokens tk v).text = tk.text := by
  unfold htmlEndStoreTokens
  split_ifs <;> simp

@[simp]
theorem htmlEndStoreTokens_pos (tk : Tokenizer) (v : List Char) :
    (htmlEndStoreTokens tk v).pos = tk.pos := by
  unfold htmlEndStoreTokens
  split_ifs <;> simp

@[simp]
theorem htmlEndStoreTokens_lineNum (tk : Tokenizer) (v : List Char) :
    (htmlEndStoreTokens tk v).lineNum = tk.lineNum := by
  unfold htmlEndStoreTokens
  split_ifs <;> simp

@[simp]
theorem dashStoreClosingAngle_text (tk : Tokenizer) (v : List Char) :
    (dashStoreClosingAngle tk v).text = tk.text := by
  unfold dashStoreClosingAngle
  dsimp only
  split_ifs <;> simp

@[simp]
theorem dashStoreClosingAngle_pos (tk : Tokenizer) (v : List Char) :
    (dashStoreClosingAngle tk v).pos = tk.pos := by
  unfold dashStoreClosingAngle
  dsimp only
  split_ifs <;> simp

@[simp]
theorem dashStoreClosingAngle_lineNum (tk : Tokenizer) (v : List Char) :
    (dashStoreClosingAngle tk v).lineNum = tk.lineNum := by
  unfold dashStoreClosingAngle
  dsimp only
  split_ifs <;> simp

@[simp]
theorem textStoreTokens_text (tk : Tokenizer) (v : List Char) :
    (textStoreTokens tk v).text = tk.text := by
  unfold textStoreTokens
  split_ifs <;> simp

@[simp]
theorem textStoreTokens_pos (tk : Tokenizer) (v : List Char) :
    (textStoreTokens tk v).pos = tk.pos := by
  unfold textStoreTokens
  split_ifs <;> simp

@[simp]
theorem textStoreTokens_lineNum (tk : Tokenizer) (v : List Char) :
    (textStoreTokens tk v).lineNum = tk.lineNum := by
  unfold textStoreTokens
  split_ifs <;> simp

/-- One FSM step never changes the input text, and either leaves the read
position alone or pushes exactly one character back, in which case it resumes
in the default text state; the text state itself never pushes back. -/
theorem next_step_spec (st : State) (ch : Char) (tk tk' : Tokenizer) (st' : State)
    (h : st.next ch tk = (tk', st')) :
    tk'.text = tk.text ∧
      (tk'.pos = tk.pos ∨
        (tk'.pos = tk.pos - 1 ∧ st'.isTextSt = true ∧ st.isTextSt = false)) := by
  cases st <;>
    simp only [State.next, textNext] at h <;>
    (repeat' split at h) <;>
    (injection h with h1 h2; subst h1; subst h2) <;>
    refine ⟨by simp, ?_⟩ <;>
    first
      | (left; simp; done)
      | (right; exact ⟨by simp, rfl, rfl⟩)

/-! ### Termination of the driving loop -/

theorem runFuel_done (fuel : Nat) (tk : Tokenizer) (st : State)
    (h : ¬ tk.pos < tk.text.length) : runFuel fuel tk st = (tk, st) := by
  cases fuel <;> simp [runFuel, h]

/-- With fuel at least twice the remaining input (plus one when not in the
text state), the driving loop consumes the whole input. -/
theorem runFuel_complete (fuel : Nat) :
    ∀ (tk : Tokenizer) (st : State),
      tk.pos ≤ tk.text.length →
      2 * (tk.text.length - tk.pos) + (if st.isTextSt then 0 else 1) ≤ fuel →
      (runFuel fuel tk st).1.text = tk.text ∧
        (runFuel fuel tk st).1.pos = tk.text.length := by
  induction fuel with
  | zero =>
    intro tk st hle hf
    refine ⟨rfl, ?_⟩
    simp only [runFuel]
    split at hf <;> omega
  | succ fuel ih =>
    intro tk st hle hf
    by_cases hpos : tk.pos < tk.text.length
    · have hstep :
          runFuel (fuel + 1) tk st =
            runFuel fuel
              ((st.next (tk.text.getD tk.pos SpaceChar) (tk.skipAheadBy 1)).1)
              ((st.next (tk.text.getD tk.pos SpaceChar) (tk.skipAheadBy 1)).2) := by
        simp only [runFuel]
        rw [if_pos hpos]
      set ch := tk.text.getD tk.pos SpaceChar with hch
      set tk1 := tk.skipAheadBy 1 with htk1
      have h1text : tk1.text = tk.text := by rw [htk1]; simp
      have h1pos : tk1.pos = tk.pos + 1 := by
        rw [htk1, skipAheadBy_pos]
        omega
      obtain ⟨htext, hporb⟩ :=
        next_step_spec st ch tk1 (st.next ch tk1).1 (st.next ch tk1).2 rfl
      have htext' : (st.next ch tk1).1.text = tk.text := by rw [htext, h1text]
      have hbit' : (if (st.next ch tk1).2.isTextSt then 0 else 1) ≤ 1 := by
        split <;> omega
      rcases hporb with heq | ⟨heq, hst', hstf⟩
      · have hrec := ih (st.next ch tk1).1 (st.next ch tk1).2
          (by rw [htext', heq, h1pos]; omega)
          (by
            rw [htext', heq, h1pos]
            omega)
        rw [hstep]
        rw [htext'] at hrec
        exact ⟨hrec.1, hrec.2⟩
      · have hbitst : (if st.isTextSt then 0 else 1) = 1 := by
          rw [hstf]
          simp
        have hbit0 : (if (st.next ch tk1).2.isTextSt then 0 else 1) = 0 := by
          rw [hst']
          simp
        rw [hbitst] at hf
        have hrec := ih (st.next ch tk1).1 (st.next ch tk1).2
          (by rw [htext', heq, h1pos]; omega)
          (by
            rw [htext', heq, h1pos, hbit0]
            omega)
        rw [hstep]
        rw [htext'] at hrec
        exact ⟨hrec.1, hrec.2⟩
    · rw [runFuel_done _ _ _ hpos]
      refine ⟨rfl, ?_⟩
      show tk.pos = tk.text.length
      omega

/-- Extra fuel beyond a completed run does not change the result. -/
theorem runFuel_add (fuel : Nat) :
    ∀ (extra : Nat) (tk : Tokenizer) (st : State),
      ¬ (runFuel fuel tk st).1.pos < (runFuel fuel tk st).1.text.length →
      runFuel (fuel + extra) tk st = runFuel fuel tk st := by
  induction fuel with
  | zero =>
    intro extra tk st h
    simp only [runFuel] at h
    rw [Nat.zero_add, runFuel_done _ _ _ h]
    rfl
  | succ fuel ih =>
    intro extra tk st h
    by_cases hpos : tk.pos < tk.text.length
    · have hstep :
          ∀ f, runFuel (f + 1) tk st =
            runFuel f
              ((st.next (tk.text.getD tk.pos SpaceChar) (tk.skipAheadBy 1)).1)
              ((st.next (tk.text.getD tk.pos SpaceChar) (tk.skipAheadBy 1)).2) := by
        intro f
        simp only [runFuel]
        rw [if_pos hpos]
      rw [hstep fuel] at h
      have : fuel + 1 + extra = fuel + extra + 1 := by omega
      rw [this, hstep (fuel + extra), hstep fuel]
      exact ih extra _ _ h
    · rw [runFuel_done _ _ _ hpos, runFuel_done _ _ _ hpos]

/-! ### Cursor invariant: position bounds and the line counter -/

theorem countSubstringAux_singleton (c : Char) (fuel : Nat) :
    ∀ l : List Char, l.length ≤ fuel → countSubstringAux fuel l [c] = l.count c := by
  induction fuel with
  | zero =>
    intro l h
    cases l with
    | nil => rfl
    | cons x rest => simp at h
  | succ fuel ih =>
    intro l h
    cases l with
    | nil => rfl
    | cons x rest =>
      simp only [countSubstringAux]
      by_cases hcx : c = x
      · subst hcx
        simp only [List.length_cons] at h
        simp [List.isPrefixOf, ih rest (by omega), List.count_cons]
      · have hbeq : (c == x) = false := by simp [hcx]
        simp only [List.length_cons] at h
        simp [List.isPrefixOf, hbeq, ih rest (by omega), List.count_cons, hcx]

theorem countSubstring_singleton (c : Char) (l : List Char) :
    countSubstring l [c] = l.count c :=
  countSubstringAux_singleton c l.length l le_rfl

theorem count_take_add (l : List Char) (a b : Nat) (hab : a ≤ b) (c : Char) :
    (l.take b).count c = (l.take a).count c + ((l.take b).drop a).count c := by
  conv_lhs => rw [← List.take_append_drop a (l.take b)]
  rw [List.count_append, List.take_take, min_eq_left hab]

/-- The cursor invariant claimed by the spec: the read position stays inside
`[0, length]` and the line counter is one plus the number of newline
characters in the consumed prefix. -/
def CursorInv (tk : Tokenizer) : Prop :=
  tk.pos ≤ tk.text.length ∧
    tk.lineNum = 1 + ((tk.text.take tk.pos).count EOLChar : Int)

theorem cursorInv_congr (tk tk' : Tokenizer) (h1 : tk'.pos = tk.pos)
    (h2 : tk'.lineNum = tk.lineNum) (h3 : tk'.text = tk.text)
    (h : CursorInv tk) : CursorInv tk' := by
  unfold CursorInv at h ⊢
  rw [h1, h2, h3]
  exact h

theorem skipAheadBy_cursorInv (tk : Tokenizer) (n : Nat) (h : CursorInv tk) :
    CursorInv (tk.skipAheadBy n) := by
  obtain ⟨h1, h2⟩ := h
  unfold Tokenizer.skipAheadBy
  dsimp only
  constructor
  · split <;> simp <;> omega
  · rw [countSubstring_singleton]
    split
    · next hgt =>
      dsimp only
      rw [count_take_add tk.text tk.pos tk.text.length h1 EOLChar, h2]
      push_cast
      ring
    · next hgt =>
      dsimp only
      rw [count_take_add tk.text tk.pos (tk.pos + n) (by omega) EOLChar, h2]
      push_cast
      ring

theorem backUpBy_cursorInv (tk : Tokenizer) (n : Nat) (h : CursorInv tk) :
    CursorInv (tk.backUpBy n) := by
  obtain ⟨h1, h2⟩ := h
  unfold Tokenizer.backUpBy
  dsimp only
  constructor
  · simp
    omega
  · rw [countSubstring_singleton]
    rw [count_take_add tk.text (tk.pos - n) tk.pos (by omega) EOLChar] at h2
    rw [h2]
    push_cast
    ring

theorem storeToken_cursorInv (tk : Tokenizer) (ty : TokenType) (v : List Char)
    (h : CursorInv tk) : CursorInv (tk.storeToken ty v) :=
  cursorInv_congr tk _ (by simp) (by simp) (by simp) h

theorem next_cursorInv (st : State) (ch : Char) (tk tk' : Tokenizer) (st' : State)
    (h : st.next ch tk = (tk', st')) (hinv : CursorInv tk) : CursorInv tk' := by
  cases st <;>
    simp only [State.next, textNext] at h <;>
    (repeat' split at h) <;>
    (injection h with h1 h2; subst h1) <;>
    first
      | exact hinv
      | exact cursorInv_congr tk _ (by simp) (by simp) (by simp) hinv
      | exact backUpBy_cursorInv _ _ (cursorInv_congr tk _ (by simp) (by simp) (by simp) hinv)

theorem runFuel_cursorInv (fuel : Nat) :
    ∀ (tk : Tokenizer) (st : State), CursorInv tk →
      CursorInv (runFuel fuel tk st).1 := by
  induction fuel with
  | zero =>
    intro tk st h
    exact h
  | succ fuel ih =>
    intro tk st h
    by_cases hpos : tk.pos < tk.text.length
    · have hstep :
          runFuel (fuel + 1) tk st =
            runFuel fuel
              ((st.next (tk.text.getD tk.pos SpaceChar) (tk.skipAheadBy 1)).1)
              ((st.next (tk.text.getD tk.pos SpaceChar) (tk.skipAheadBy 1)).2) := by
        simp only [runFuel]
        rw [if_pos hpos]
      rw [hstep]
      exact ih _ _
        (next_cursorInv _ _ _ _ _ rfl (skipAheadBy_cursorInv tk 1 h))
    · rw [runFuel_done _ _ _ hpos]
      exact h

theorem initTokenizer_cursorInv (text : List Char) : CursorInv (initTokenizer text) := by
  constructor
  · simp [initTokenizer]
  · simp [initTokenizer]

/-! ### Buffer lemmas: how `storeToken` changes the reversed token list -/

theorem joinRev_storeToken (tk : Tokenizer) (ty : TokenType) (v : List Char) :
    joinRev (tk.storeToken ty v).tokensRev = joinRev tk.tokensRev ++ v := by
  rcases htk : tk.tokensRev with _ | ⟨last, rest⟩
  · simp [Tokenizer.storeToken, htk, joinRev]
  · simp only [Tokenizer.storeToken, htk]
    split
    · simp [joinRev, List.append_assoc]
    · simp [joinRev]

theorem textStoreTokens_joinRev (tk : Tokenizer) (v : List Char) :
    joinRev (textStoreTokens tk v).tokensRev = joinRev tk.tokensRev ++ v := by
  unfold textStoreTokens
  split
  · exact joinRev_storeToken tk TokenType.TEXT v
  · next hv =>
    have : v = [] := by
      cases v with
      | nil => rfl
      | cons x xs => simp at hv
    rw [this]
    simp

/-- Storing a non-text token always conses it on, never merges. -/
theorem storeToken_cons_of_ne_text (tk : Tokenizer) (ty : TokenType) (v : List Char)
    (hty : ty ≠ TokenType.TEXT) :
    (tk.storeToken ty v).tokensRev = Token.mk ty v tk.lineNum :: tk.tokensRev := by
  rcases htk : tk.tokensRev with _ | ⟨last, rest⟩ <;>
    simp [Tokenizer.storeToken, htk, hty]

/-- Storing a text token onto a buffer whose most recent token is not text
conses it on as well. -/
theorem storeToken_text_cons (tk : Tokenizer) (v : List Char)
    (h : ∀ t, tk.tokensRev.head? = some t → t.type ≠ TokenType.TEXT) :
    (tk.storeToken TokenType.TEXT v).tokensRev =
      Token.mk TokenType.TEXT v tk.lineNum :: tk.tokensRev := by
  rcases htk : tk.tokensRev with _ | ⟨last, rest⟩
  · simp [Tokenizer.storeToken, htk]
  · have hlast : last.type ≠ TokenType.TEXT := h last (by rw [htk]; rfl)
    simp [Tokenizer.storeToken, htk, hlast]

theorem joinValues_reverse (l : List Token) : joinValues l.reverse = joinRev l := by
  induction l with
  | nil => rfl
  | cons t ts ih =>
    simp [joinValues, joinRev, List.map_append, List.flatten_append] at ih ⊢
    rw [ih]

/-! ### The text-merge invariant: never two adjacent text tokens -/

/-- No two adjacent tokens of the list are both plain-text tokens. -/
def NoConsecText (l : List Token) : Prop :=
  l.Chain' (fun a b => ¬(a.type = TokenType.TEXT ∧ b.type = TokenType.TEXT))

theorem noConsecText_nil : NoConsecText [] := List.chain'_nil

theorem storeToken_noConsecText (tk : Tokenizer) (ty : TokenType) (v : List Char)
    (h : NoConsecText tk.tokensRev) : NoConsecText (tk.storeToken ty v).tokensRev := by
  rcases htk : tk.tokensRev with _ | ⟨last, rest⟩
  · simp [Tokenizer.storeToken, htk, NoConsecText]
  · rw [htk] at h
    simp only [Tokenizer.storeToken, htk]
    split
    · next hcond =>
      cases rest with
      | nil => simp [NoConsecText]
      | cons b bs =>
        rw [NoConsecText, List.chain'_cons] at h ⊢
        refine ⟨?_, h.2⟩
        intro hcontra
        exact h.1 ⟨hcond.2, hcontra.2⟩
    · next hcond =>
      rw [NoConsecText, List.chain'_cons]
      refine ⟨?_, h⟩
      intro hcontra
      exact hcond ⟨hcontra.1, hcontra.2⟩

theorem textStoreTokens_noConsecText (tk : Tokenizer) (v : List Char)
    (h : NoConsecText tk.tokensRev) : NoConsecText (textStoreTokens tk v).tokensRev := by
  unfold textStoreTokens
  split
  · exact storeToken_noConsecText tk TokenType.TEXT v h
  · exact h

theorem quoteStoreTokens_noConsecText (tk : Tokenizer) (v : List Char)
    (h : NoConsecText tk.tokensRev) : NoConsecText (quoteStoreTokens tk v).tokensRev := by
  unfold quoteStoreTokens
  dsimp only
  split_ifs <;>
    first
      | exact h
      | exact storeToken_noConsecText _ _ _ h
      | exact storeToken_noConsecText _ _ _ (storeToken_noConsecText _ _ _ h)
      | exact storeToken_noConsecText _ _ _
          (storeToken_noConsecText _ _ _ (storeToken_noConsecText _ _ _ h))

theorem htmlStartStoreTokens_noConsecText (tk : Tokenizer) (v : List Char)
    (h : NoConsecText tk.tokensRev) : NoConsecText (htmlStartStoreTokens tk v).tokensRev := by
  unfold htmlStartStoreTokens
  split_ifs <;>
    first
      | exact storeToken_noConsecText _ _ _ h
      | exact storeToken_noConsecText _ _ _ (storeToken_noConsecText _ _ _ h)

theorem htmlEndStoreTokens_noConsecText (tk : Tokenizer) (v : List Char)
    (h : NoConsecText tk.tokensRev) : NoConsecText (htmlEndStoreTokens tk v).tokensRev := by
  unfold htmlEndStoreTokens
  split_ifs <;>
    first
      | exact storeToken_noConsecText _ _ _ h
      | exact storeToken_noConsecText _ _ _ (storeToken_noConsecText _ _ _ h)

theorem dashStoreClosingAngle_noConsecText (tk : Tokenizer) (v : List Char)
    (h : NoConsecText tk.tokensRev) : NoConsecText (dashStoreClosingAngle tk v).tokensRev := by
  unfold dashStoreClosingAngle
  dsimp only
  split_ifs <;>
    first
      | exact storeToken_noConsecText _ _ _ h
      | exact storeToken_noConsecText _ _ _ (storeToken_noConsecText _ _ _ h)

theorem next_noConsecText (st : State) (ch : Char) (tk tk' : Tokenizer) (st' : State)
    (h : st.next ch tk = (tk', st')) (hn : NoConsecText tk.tokensRev) :
    NoConsecText tk'.tokensRev := by
  cases st with
  | textSt v =>
    simp only [State.next, textNext] at h
    repeat' split at h
    all_goals (injection h with h1 h2; subst h1)
    all_goals
      first
        | exact textStoreTokens_noConsecText _ _ hn
        | exact storeToken_noConsecText _ _ _ (textStoreTokens_noConsecText _ _ hn)
        | exact hn
  | quoteSt v =>
    simp only [State.next] at h
    repeat' split at h
    all_goals (injection h with h1 h2; subst h1)
    all_goals
      first
        | (simp only [backUpBy_tokensRev]; exact quoteStoreTokens_noConsecText _ _ hn)
        | exact hn
  | htmlStartSt v =>
    simp only [State.next] at h
    repeat' split at h
    all_goals (injection h with h1 h2; subst h1)
    all_goals
      first
        | (simp only [backUpBy_tokensRev]; exact htmlStartStoreTokens_noConsecText _ _ hn)
        | exact hn
  | htmlEndSt v =>
    simp only [State.next] at h
    repeat' split at h
    all_goals (injection h with h1 h2; subst h1)
    all_goals
      first
        | (simp only [backUpBy_tokensRev]; exact htmlEndStoreTokens_noConsecText _ _ hn)
        | exact hn
  | commentStartSt v =>
    simp only [State.next] at h
    repeat' split at h
    all_goals (injection h with h1 h2; subst h1)
    all_goals
      first
        | exact storeToken_noConsecText _ _ _ hn
        | (simp only [backUpBy_tokensRev]; exact hn)
        | exact hn
  | angleOpenSt v =>
    simp only [State.next] at h
    repeat' split at h
    all_goals (injection h with h1 h2; subst h1)
    all_goals
      first
        | (simp only [backUpBy_tokensRev]; exact storeToken_noConsecText _ _ _ hn)
        | exact hn
  | spaceSt v =>
    simp only [State.next] at h
    repeat' split at h
    all_goals (injection h with h1 h2; subst h1)
    all_goals
      first
        | (simp only [backUpBy_tokensRev]; exact storeToken_noConsecText _ _ _ hn)
        | exact hn
  | dashSt v =>
    simp only [State.next] at h
    repeat' split at h
    all_goals (injection h with h1 h2; subst h1)
    all_goals
      first
        | exact dashStoreClosingAngle_noConsecText _ _ hn
        | (simp only [backUpBy_tokensRev]; exact storeToken_noConsecText _ _ _ hn)
        | exact hn
  | hashSt v =>
    simp only [State.next] at h
    repeat' split at h
    all_goals (injection h with h1 h2; subst h1)
    all_goals
      first
        | (simp only [backUpBy_tokensRev]; exact storeToken_noConsecText _ _ _ hn)
        | exact hn
  | braceOpenSt v =>
    simp only [State.next] at h
    repeat' split at h
    all_goals (injection h with h1 h2; subst h1)
    all_goals
      first
        | exact storeToken_noConsecText _ _ _ hn
        | (simp only [backUpBy_tokensRev]; exact hn)
  | braceCloseSt v =>
    simp only [State.next] at h
    repeat' split at h
    all_goals (injection h with h1 h2; subst h1)
    all_goals
      first
        | exact storeToken_noConsecText _ _ _ hn
        | (simp only [backUpBy_tokensRev]; exact hn)
  | bracketOpenSt v =>
    simp only [State.next] at h
    repeat' split at h
    all_goals (injection h with h1 h2; subst h1)
    all_goals
      first
        | (simp only [backUpBy_tokensRev]; exact storeToken_noConsecText _ _ _ hn)
        | exact storeToken_noConsecText _ _ _ hn
  | bracketCloseSt v =>
    simp only [State.next] at h
    repeat' split at h
    all_goals (injection h with h1 h2; subst h1)
    all_goals
      first
        | (simp only [backUpBy_tokensRev]; exact storeToken_noConsecText _ _ _ hn)
        | exact storeToken_noConsecText _ _ _ hn
  | pipeSt v =>
    simp only [State.next] at h
    repeat' split at h
    all_goals (injection h with h1 h2; subst h1)
    all_goals
      first
        | (simp only [backUpBy_tokensRev]; exact storeToken_noConsecText _ _ _ hn)
        | exact storeToken_noConsecText _ _ _ hn

theorem terminate_noConsecText (st : State) (tk : Tokenizer)
    (hn : NoConsecText tk.tokensRev) : NoConsecText (st.terminate tk).tokensRev := by
  cases st with
  | textSt v => exact textStoreTokens_noConsecText _ _ hn
  | quoteSt v => exact quoteStoreTokens_noConsecText _ _ hn
  | htmlStartSt v => exact htmlStartStoreTokens_noConsecText _ _ hn
  | htmlEndSt v => exact htmlEndStoreTokens_noConsecText _ _ hn
  | commentStartSt v => exact textStoreTokens_noConsecText _ _ hn
  | angleOpenSt v => exact storeToken_noConsecText _ _ _ hn
  | spaceSt v => exact storeToken_noConsecText _ _ _ hn
  | dashSt v => exact storeToken_noConsecText _ _ _ hn
  | hashSt v => exact storeToken_noConsecText _ _ _ hn
  | braceOpenSt v => exact textStoreTokens_noConsecText _ _ hn
  | braceCloseSt v => exact textStoreTokens_noConsecText _ _ hn
  | bracketOpenSt v => exact storeToken_noConsecText _ _ _ hn
  | bracketCloseSt v => exact storeToken_noConsecText _ _ _ hn
  | pipeSt v => exact storeToken_noConsecText _ _ _ hn

theorem runFuel_noConsecText (fuel : Nat) :
    ∀ (tk : Tokenizer) (st : State), NoConsecText tk.tokensRev →
      NoConsecText (runFuel fuel tk st).1.tokensRev := by
  induction fuel with
  | zero => intro tk st h; exact h
  | succ fuel ih =>
    intro tk st h
    by_cases hpos : tk.pos < tk.text.length
    · have hstep :
          runFuel (fuel + 1) tk st =
            runFuel fuel
              ((st.next (tk.text.getD tk.pos SpaceChar) (tk.skipAheadBy 1)).1)
              ((st.next (tk.text.getD tk.pos SpaceChar) (tk.skipAheadBy 1)).2) := by
        simp only [runFuel]
        rw [if_pos hpos]
      rw [hstep]
      refine ih _ _ (next_noConsecText _ _ _ _ _ rfl ?_)
      simpa using h
    · rw [runFuel_done _ _ _ hpos]
      exact h

theorem noConsecText_reverse (l : List Token) (h : NoConsecText l) :
    NoConsecText l.reverse := by
  rw [NoConsecText, List.chain'_reverse]
  exact List.Chain'.imp (fun a b hab => by
    intro hc
    exact hab ⟨hc.2, hc.1⟩) h

/-! ### The no-empty-token invariant -/

/-- Every token of the list has a non-empty value. -/
def NoEmptyTokens (l : List Token) : Prop := ∀ t ∈ l, t.value ≠ []

theorem storeToken_noEmpty (tk : Tokenizer) (ty : TokenType) (v : List Char)
    (hv : v ≠ []) (h : NoEmptyTokens tk.tokensRev) :
    NoEmptyTokens (tk.storeToken ty v).tokensRev := by
  rcases htk : tk.tokensRev with _ | ⟨last, rest⟩
  · simp only [Tokenizer.storeToken, htk]
    intro t ht
    simp only [List.mem_singleton] at ht
    subst ht
    simpa using hv
  · rw [htk] at h
    simp only [Tokenizer.storeToken, htk]
    split
    · intro t ht
      simp only [List.mem_cons] at ht
      rcases ht with rfl | ht
      · simp [hv]
      · exact h t (by simp [ht])
    · intro t ht
      simp only [List.mem_cons] at ht
      rcases ht with rfl | h2
      · simpa using hv
      · exact h t (by simpa using h2)

theorem textStoreTokens_noEmpty (tk : Tokenizer) (v : List Char)
    (h : NoEmptyTokens tk.tokensRev) : NoEmptyTokens (textStoreTokens tk v).tokensRev := by
  unfold textStoreTokens
  split
  · next hlen => exact storeToken_noEmpty _ _ _ (by rintro rfl; simp at hlen) h
  · exact h

theorem storeTokenIf_noEmpty (tk : Tokenizer) (c : Prop) [Decidable c]
    (ty : TokenType) (v : List Char) (hv : c → v ≠ []) (h : NoEmptyTokens tk.tokensRev) :
    NoEmptyTokens (if c then tk.storeToken ty v else tk).tokensRev := by
  split
  · next hc => exact storeToken_noEmpty _ _ _ (hv hc) h
  · exact h

theorem quoteStoreTokens_noEmpty (tk : Tokenizer) (v : List Char)
    (h : NoEmptyTokens tk.tokensRev) : NoEmptyTokens (quoteStoreTokens tk v).tokensRev := by
  unfold quoteStoreTokens
  dsimp only
  refine storeTokenIf_noEmpty _ _ _ _ (fun _ => by simp [ItalicMarker]) ?_
  refine storeTokenIf_noEmpty _ _ _ _ (fun _ => by simp [BoldMarker]) ?_
  refine storeTokenIf_noEmpty _ _ _ _ (fun hc => ?_) h
  simp only [ne_eq, List.replicate_eq_nil_iff]
  omega

theorem isTag_normalize_ne_nil (s : List Char) (h : isHtmlOrExtensionTag s = true) :
    normalizeTagName s ≠ [] := by
  have hall : ∀ x ∈ HtmlTags, x ≠ [] := by decide
  have hall2 : ∀ x ∈ ExtensionTags, x ≠ [] := by decide
  unfold isHtmlOrExtensionTag isHtmlTag isExtensionTag at h
  simp only [Bool.or_eq_true] at h
  rcases h with h1 | h1
  · exact hall _ (by simpa using h1)
  · exact hall2 _ (by simpa using h1)

theorem htmlStartStoreTokens_noEmpty (tk : Tokenizer) (v : List Char) (hv : v ≠ [])
    (h : NoEmptyTokens tk.tokensRev) : NoEmptyTokens (htmlStartStoreTokens tk v).tokensRev := by
  unfold htmlStartStoreTokens
  split
  · next htag =>
    exact storeToken_noEmpty _ _ _ (isTag_normalize_ne_nil _ htag)
      (storeToken_noEmpty _ _ _ (by simp) h)
  · exact storeToken_noEmpty _ _ _ hv h

theorem htmlEndStoreTokens_noEmpty (tk : Tokenizer) (v : List Char) (hv : v ≠ [])
    (h : NoEmptyTokens tk.tokensRev) : NoEmptyTokens (htmlEndStoreTokens tk v).tokensRev := by
  unfold htmlEndStoreTokens
  split
  · next htag =>
    exact storeToken_noEmpty _ _ _ (isTag_normalize_ne_nil _ htag)
      (storeToken_noEmpty _ _ _ (by simp [EndTagBeginMarker]) h)
  · exact storeToken_noEmpty _ _ _ hv h

theorem dashStoreClosingAngle_noEmpty (tk : Tokenizer) (v : List Char) (hv : v ≠ [])
    (h : NoEmptyTokens tk.tokensRev) :
    NoEmptyTokens (dashStoreClosingAngle tk (v ++ [AngleCloseChar])).tokensRev := by
  unfold dashStoreClosingAngle
  dsimp only
  split_ifs with h1 h2
  · exact storeToken_noEmpty _ _ _ (by simp [CommentEndMarker])
      (storeToken_noEmpty _ _ _ h2 h)
  · exact storeToken_noEmpty _ _ _ (by simp [CommentEndMarker]) h
  · refine storeToken_noEmpty _ _ _ (by simp) ?_
    refine storeToken_noEmpty _ _ _ ?_ h
    have hlen : (v ++ [AngleCloseChar]).length - 1 = v.length := by simp
    rw [hlen, List.take_left]
    exact hv

/-- Wellformedness of the per-state accumulation buffers needed for the
no-empty-token invariant: the run/marker states always hold at least the
character that spawned them. -/
def State.ok : State → Prop
  | .textSt _ => True
  | .quoteSt _ => True
  | .commentStartSt _ => True
  | .pipeSt _ => True
  | .htmlStartSt value => value ≠ []
  | .htmlEndSt value => value ≠ []
  | .angleOpenSt value => value ≠ []
  | .spaceSt value => value ≠ []
  | .dashSt value => value ≠ []
  | .hashSt value => value ≠ []
  | .braceOpenSt value => value ≠ []
  | .braceCloseSt value => value ≠ []
  | .bracketOpenSt value => value ≠ []
  | .bracketCloseSt value => value ≠ []

theorem next_ok (st : State) (ch : Char) (tk tk' : Tokenizer) (st' : State)
    (h : st.next ch tk = (tk', st')) (hok : st.ok) : st'.ok := by
  cases st <;>
    simp only [State.next, textNext] at h <;>
    (repeat' split at h) <;>
    (injection h with h1 h2; subst h2) <;>
    simp [State.ok]

theorem next_noEmpty (st : State) (ch : Char) (tk tk' : Tokenizer) (st' : State)
    (h : st.next ch tk = (tk', st')) (hok : st.ok) (hn : NoEmptyTokens tk.tokensRev) :
    NoEmptyTokens tk'.tokensRev := by
  cases st with
  | textSt v =>
    simp only [State.next, textNext] at h
    repeat' split at h
    all_goals (injection h with h1 h2; subst h1)
    all_goals
      first
        | exact textStoreTokens_noEmpty _ _ hn
        | exact storeToken_noEmpty _ _ _ (by simp) (textStoreTokens_noEmpty _ _ hn)
        | exact hn
  | quoteSt v =>
    simp only [State.next] at h
    repeat' split at h
    all_goals (injection h with h1 h2; subst h1)
    all_goals
      first
        | (simp only [backUpBy_tokensRev]; exact quoteStoreTokens_noEmpty _ _ hn)
        | exact hn
  | htmlStartSt v =>
    simp only [State.next] at h
    repeat' split at h
    all_goals (injection h with h1 h2; subst h1)
    all_goals
      first
        | (simp only [backUpBy_tokensRev]; exact htmlStartStoreTokens_noEmpty _ _ hok hn)
        | exact hn
  | htmlEndSt v =>
    simp only [State.next] at h
    repeat' split at h
    all_goals (injection h with h1 h2; subst h1)
    all_goals
      first
        | (simp only [backUpBy_tokensRev]; exact htmlEndStoreTokens_noEmpty _ _ hok hn)
        | exact hn
  | commentStartSt v =>
    simp only [State.next] at h
    repeat' split at h
    all_goals (injection h with h1 h2; subst h1)
    all_goals
      first
        | exact storeToken_noEmpty _ _ _ (by simp) hn
        | (simp only [backUpBy_tokensRev]; exact hn)
        | exact hn
  | angleOpenSt v =>
    simp only [State.next] at h
    repeat' split at h
    all_goals (injection h with h1 h2; subst h1)
    all_goals
      first
        | (simp only [backUpBy_tokensRev]; exact storeToken_noEmpty _ _ _ hok hn)
        | exact hn
  | spaceSt v =>
    simp only [State.next] at h
    repeat' split at h
    all_goals (injection h with h1 h2; subst h1)
    all_goals
      first
        | (simp only [backUpBy_tokensRev]; exact storeToken_noEmpty _ _ _ hok hn)
        | exact hn
  | dashSt v =>
    simp only [State.next] at h
    repeat' split at h
    all_goals (injection h with h1 h2; subst h1)
    all_goals
      first
        | exact dashStoreClosingAngle_noEmpty _ _ hok hn
        | (simp only [backUpBy_tokensRev]; exact storeToken_noEmpty _ _ _ hok hn)
        | exact hn
  | hashSt v =>
    simp only [State.next] at h
    repeat' split at h
    all_goals (injection h with h1 h2; subst h1)
    all_goals
      first
        | (simp only [backUpBy_tokensRev]; exact storeToken_noEmpty _ _ _ hok hn)
        | exact hn
  | braceOpenSt v =>
    simp only [State.next] at h
    repeat' split at h
    all_goals (injection h with h1 h2; subst h1)
    all_goals
      first
        | exact storeToken_noEmpty _ _ _ (by simp) hn
        | (simp only [backUpBy_tokensRev]; exact hn)
  | braceCloseSt v =>
    simp only [State.next] at h
    repeat' split at h
    all_goals (injection h with h1 h2; subst h1)
    all_goals
      first
        | exact storeToken_noEmpty _ _ _ (by simp) hn
        | (simp only [backUpBy_tokensRev]; exact hn)
  | bracketOpenSt v =>
    simp only [State.next] at h
    repeat' split at h
    all_goals (injection h with h1 h2; subst h1)
    all_goals
      first
        | (simp only [backUpBy_tokensRev]; exact storeToken_noEmpty _ _ _ hok hn)
        | exact storeToken_noEmpty _ _ _ (by simp) hn
  | bracketCloseSt v =>
    simp only [State.next] at h
    repeat' split at h
    all_goals (injection h with h1 h2; subst h1)
    all_goals
      first
        | (simp only [backUpBy_tokensRev]; exact storeToken_noEmpty _ _ _ hok hn)
        | exact storeToken_noEmpty _ _ _ (by simp) hn
  | pipeSt v =>
    simp only [State.next] at h
    repeat' split at h
    all_goals (injection h with h1 h2; subst h1)
    all_goals
      first
        | (simp only [backUpBy_tokensRev]; exact storeToken_noEmpty _ _ _ (by simp [PipeChar]) hn)
        | exact storeToken_noEmpty _ _ _ (by simp) hn

theorem terminate_noEmpty (st : State) (tk : Tokenizer) (hok : st.ok)
    (hn : NoEmptyTokens tk.tokensRev) : NoEmptyTokens (st.terminate tk).tokensRev := by
  cases st with
  | textSt v => exact textStoreTokens_noEmpty _ _ hn
  | quoteSt v => exact quoteStoreTokens_noEmpty _ _ hn
  | htmlStartSt v => exact htmlStartStoreTokens_noEmpty _ _ hok hn
  | htmlEndSt v => exact htmlEndStoreTokens_noEmpty _ _ hok hn
  | commentStartSt v => exact textStoreTokens_noEmpty _ _ hn
  | angleOpenSt v => exact storeToken_noEmpty _ _ _ hok hn
  | spaceSt v => exact storeToken_noEmpty _ _ _ hok hn
  | dashSt v => exact storeToken_noEmpty _ _ _ hok hn
  | hashSt v => exact storeToken_noEmpty _ _ _ hok hn
  | braceOpenSt v => exact textStoreTokens_noEmpty _ _ hn
  | braceCloseSt v => exact textStoreTokens_noEmpty _ _ hn
  | bracketOpenSt v => exact storeToken_noEmpty _ _ _ hok hn
  | bracketCloseSt v => exact storeToken_noEmpty _ _ _ hok hn
  | pipeSt v => exact storeToken_noEmpty _ _ _ (by simp [PipeChar]) hn

theorem runFuel_noEmpty (fuel : Nat) :
    ∀ (tk : Tokenizer) (st : State), st.ok → NoEmptyTokens tk.tokensRev →
      (runFuel fuel tk st).2.ok ∧ NoEmptyTokens (runFuel fuel tk st).1.tokensRev := by
  induction fuel with
  | zero => intro tk st hok h; exact ⟨hok, h⟩
  | succ fuel ih =>
    intro tk st hok h
    by_cases hpos : tk.pos < tk.text.length
    · have hstep :
          runFuel (fuel + 1) tk st =
            runFuel fuel
              ((st.next (tk.text.getD tk.pos SpaceChar) (tk.skipAheadBy 1)).1)
              ((st.next (tk.text.getD tk.pos SpaceChar) (tk.skipAheadBy 1)).2) := by
        simp only [runFuel]
        rw [if_pos hpos]
      rw [hstep]
      refine ih _ _ (next_ok _ _ _ _ _ rfl hok) (next_noEmpty _ _ _ _ _ rfl hok ?_)
      simpa using h
    · rw [runFuel_done _ _ _ hpos]
      exact ⟨hok, h⟩

/-! ### Round-trip: joined token values reproduce the input (restricted) -/

/-- The raw text a state is still holding (its `value` buffer). -/
def State.pending : State → List Char
  | .textSt value | .quoteSt value | .htmlStartSt value | .htmlEndSt value
  | .commentStartSt value | .angleOpenSt value | .spaceSt value | .dashSt value
  | .hashSt value | .braceOpenSt value | .braceCloseSt value
  | .bracketOpenSt value | .bracketCloseSt value | .pipeSt value => value

/-- States reachable on inputs without a quote character and without `<`:
the states that lose or rewrite characters (quote run, tag recognition,
comment-open) are excluded, and the pipe state always holds exactly its
seed character. -/
def SafeState : State → Prop
  | .quoteSt _ => False
  | .htmlStartSt _ => False
  | .htmlEndSt _ => False
  | .commentStartSt _ => False
  | .angleOpenSt _ => False
  | .pipeSt value => value = [PipeChar]
  | _ => True

theorem dashStoreClosingAngle_joinRev (tk : Tokenizer) (v : List Char) :
    joinRev (dashStoreClosingAngle tk (v ++ ['>'])).tokensRev =
      joinRev tk.tokensRev ++ v ++ ['>'] := by
  unfold dashStoreClosingAngle
  dsimp only
  split
  · next hsuf =>
    rw [List.isSuffixOf_iff_suffix] at hsuf
    obtain ⟨p, hp⟩ := hsuf
    have hlen : (v ++ ['>']).length - CommentEndMarker.length = p.length := by
      rw [← hp]
      simp [CommentEndMarker]
    rw [hlen, ← hp, List.take_left]
    split
    · simp only [joinRev_storeToken, List.append_assoc]
      rw [hp]
    · next hpn =>
      have hpe : p = [] := by
        by_contra hne
        exact hpn hne
      subst hpe
      simp only [joinRev_storeToken]
      rw [show CommentEndMarker = v ++ ['>'] from by simpa using hp]
      simp [List.append_assoc]
  · have hlen : (v ++ ['>']).length - 1 = v.length := by simp
    rw [hlen, List.take_left]
    simp [joinRev_storeToken, List.append_assoc, AngleCloseChar]

theorem next_join (st : State) (ch : Char) (tk tk' : Tokenizer) (st' : State)
    (h : st.next ch tk = (tk', st')) (hs : SafeState st)
    (hq : ch ≠ SingleQuoteChar) (ha : ch ≠ AngleOpenChar) :
    SafeState st' ∧
      ((tk'.pos = tk.pos ∧
          joinRev tk'.tokensRev ++ st'.pending =
            joinRev tk.tokensRev ++ st.pending ++ [ch]) ∨
        (tk'.pos = tk.pos - 1 ∧
          joinRev tk'.tokensRev ++ st'.pending =
            joinRev tk.tokensRev ++ st.pending)) := by
  have hpipe : ∀ w : List Char, SafeState (State.pipeSt w) → w = [PipeChar] := fun w hw => hw
  cases st with
  | quoteSt v => exact hs.elim
  | htmlStartSt v => exact hs.elim
  | htmlEndSt v => exact hs.elim
  | commentStartSt v => exact hs.elim
  | angleOpenSt v => exact hs.elim
  | pipeSt v =>
    have hv : v = [PipeChar] := hs
    subst hv
    simp only [State.next] at h
    repeat' split at h
    all_goals (injection h with h1 h2; subst h1; subst h2)
    all_goals
      first
        | (refine ⟨?_, Or.inl ⟨?_, ?_⟩⟩ <;>
            (simp [SafeState, State.pending, PipeChar, textStoreTokens_joinRev,
              joinRev_storeToken, dashStoreClosingAngle_joinRev, List.append_assoc]
             done))
        | (refine ⟨?_, Or.inr ⟨?_, ?_⟩⟩ <;>
            (simp [SafeState, State.pending, PipeChar, textStoreTokens_joinRev,
              joinRev_storeToken, List.append_assoc]
             done))
  | _ v =>
    simp only [State.next, textNext] at h
    repeat' split at h
    all_goals (injection h with h1 h2; subst h1; subst h2)
    all_goals
      first
        | exact absurd rfl hq
        | exact absurd rfl ha
        | (refine ⟨?_, Or.inl ⟨?_, ?_⟩⟩ <;>
            (simp [SafeState, State.pending, PipeChar, textStoreTokens_joinRev,
              joinRev_storeToken, dashStoreClosingAngle_joinRev, List.append_assoc]
             done))
        | (refine ⟨?_, Or.inr ⟨?_, ?_⟩⟩ <;>
            (simp [SafeState, State.pending, PipeChar, textStoreTokens_joinRev,
              joinRev_storeToken, List.append_assoc]
             done))

theorem terminate_join (st : State) (tk : Tokenizer) (hs : SafeState st) :
    joinRev (st.terminate tk).tokensRev = joinRev tk.tokensRev ++ st.pending := by
  cases st with
  | textSt v => simp [State.terminate, State.pending, textStoreTokens_joinRev]
  | quoteSt v => exact hs.elim
  | htmlStartSt v => exact hs.elim
  | htmlEndSt v => exact hs.elim
  | commentStartSt v => exact hs.elim
  | angleOpenSt v => exact hs.elim
  | spaceSt v => simp [State.terminate, State.pending, joinRev_storeToken]
  | dashSt v => simp [State.terminate, State.pending, joinRev_storeToken]
  | hashSt v => simp [State.terminate, State.pending, joinRev_storeToken]
  | braceOpenSt v => simp [State.terminate, State.pending, textStoreTokens_joinRev]
  | braceCloseSt v => simp [State.terminate, State.pending, textStoreTokens_joinRev]
  | bracketOpenSt v => simp [State.terminate, State.pending, joinRev_storeToken]
  | bracketCloseSt v => simp [State.terminate, State.pending, joinRev_storeToken]
  | pipeSt v =>
    have hv : v = [PipeChar] := hs
    subst hv
    simp [State.terminate, State.pending, joinRev_storeToken]

theorem runFuel_join (fuel : Nat) :
    ∀ (tk : Tokenizer) (st : State),
      (∀ c ∈ tk.text, c ≠ SingleQuoteChar ∧ c ≠ AngleOpenChar) →
      tk.pos ≤ tk.text.length →
      SafeState st →
      joinRev tk.tokensRev ++ st.pending ++ tk.text.drop tk.pos = tk.text →
      SafeState (runFuel fuel tk st).2 ∧
        joinRev (runFuel fuel tk st).1.tokensRev ++ (runFuel fuel tk st).2.pending ++
            (runFuel fuel tk st).1.text.drop (runFuel fuel tk st).1.pos =
          (runFuel fuel tk st).1.text := by
  induction fuel with
  | zero => intro tk st _ _ hs hj; exact ⟨hs, hj⟩
  | succ fuel ih =>
    intro tk st hall hle hs hj
    by_cases hpos : tk.pos < tk.text.length
    · have hstep :
          runFuel (fuel + 1) tk st =
            runFuel fuel
              ((st.next (tk.text.getD tk.pos SpaceChar) (tk.skipAheadBy 1)).1)
              ((st.next (tk.text.getD tk.pos SpaceChar) (tk.skipAheadBy 1)).2) := by
        simp only [runFuel]
        rw [if_pos hpos]
      set ch := tk.text.getD tk.pos SpaceChar with hchdef
      have hchget : ch = tk.text[tk.pos] := by
        rw [hchdef, List.getD_eq_getElem?_getD, List.getElem?_eq_getElem hpos]
        rfl
      have hchmem : ch ∈ tk.text := by
        rw [hchget]
        exact List.getElem_mem hpos
      have hq := (hall ch hchmem).1
      have ha := (hall ch hchmem).2
      set tk1 := tk.skipAheadBy 1 with htk1
      have h1text : tk1.text = tk.text := by rw [htk1]; simp
      have h1tok : tk1.tokensRev = tk.tokensRev := by rw [htk1]; simp
      have h1pos : tk1.pos = tk.pos + 1 := by
        rw [htk1, skipAheadBy_pos]
        omega
      obtain ⟨htext2, _⟩ :=
        next_step_spec st ch tk1 (st.next ch tk1).1 (st.next ch tk1).2 rfl
      obtain ⟨hs2, hjor⟩ := next_join st ch tk1 (st.next ch tk1).1 (st.next ch tk1).2 rfl hs hq ha
      have hdrop : tk.text.drop tk.pos = ch :: tk.text.drop (tk.pos + 1) := by
        rw [hchget]
        exact List.drop_eq_getElem_cons hpos
      rw [hstep]
      rcases hjor with ⟨hp2, hj2⟩ | ⟨hp2, hj2⟩
      · refine ih _ _ ?_ ?_ hs2 ?_
        · rw [htext2, h1text]; exact hall
        · rw [htext2, h1text, hp2, h1pos]; omega
        · rw [htext2, h1text, hp2, h1pos, hj2, h1tok]
          calc joinRev tk.tokensRev ++ st.pending ++ [ch] ++ tk.text.drop (tk.pos + 1)
              = joinRev tk.tokensRev ++ st.pending ++ (ch :: tk.text.drop (tk.pos + 1)) := by
                simp [List.append_assoc]
            _ = joinRev tk.tokensRev ++ st.pending ++ tk.text.drop tk.pos := by rw [← hdrop]
            _ = tk.text := hj
      · refine ih _ _ ?_ ?_ hs2 ?_
        · rw [htext2, h1text]; exact hall
        · rw [htext2, h1text, hp2, h1pos]; omega
        · rw [htext2, h1text, hp2, h1pos, hj2, h1tok]
          have : tk.pos + 1 - 1 = tk.pos := by omega
          rw [this]
          exact hj
    · rw [runFuel_done _ _ _ hpos]
      exact ⟨hs, hj⟩

/-! ### Claim theorems -/

/-- C1 counterexample: the round-trip property fails as stated.  A lone quote
character is consumed by the quote state and, being a run of length one,
produces no token at all, so re-joining the token values does not reproduce
the input. -/
theorem tokenize_roundtrip_fails_on_single_quote :
    tokenize [SingleQuoteChar] = [] ∧
      joinValues (tokenize [SingleQuoteChar]) ≠ [SingleQuoteChar] := by
  decide

/-- C1 (amended): for every input string containing no quote character and no
open-angle character, concatenating the value fields of the tokens returned
by `tokenize`, in order, reproduces the original input exactly.  (Quote runs
of length one are dropped, and recognized tag names are normalized, which is
why those two characters must be excluded.) -/
theorem tokenize_roundtrip_restricted (s : List Char)
    (hall : ∀ c ∈ s, c ≠ SingleQuoteChar ∧ c ≠ AngleOpenChar) :
    joinValues (tokenize s) = s := by
  have hjoin := runFuel_join (2 * s.length + 1) (initTokenizer s) (State.textSt [])
    (by simpa [initTokenizer] using hall) (by simp [initTokenizer]) trivial
    (by simp [initTokenizer, joinRev, State.pending])
  have hcomp := runFuel_complete (2 * s.length + 1) (initTokenizer s) (State.textSt [])
    (by simp [initTokenizer]) (by simp [initTokenizer, State.isTextSt])
  obtain ⟨hs2, hj2⟩ := hjoin
  have htext : (runFuel (2 * s.length + 1) (initTokenizer s) (State.textSt [])).1.text = s :=
    hcomp.1
  have hposlen :
      (runFuel (2 * s.length + 1) (initTokenizer s) (State.textSt [])).1.pos = s.length :=
    hcomp.2
  rw [htext, hposlen, List.drop_length, List.append_nil] at hj2
  have htok : tokenize s =
      ((runFuel (2 * s.length + 1) (initTokenizer s) (State.textSt [])).2.terminate
        (runFuel (2 * s.length + 1) (initTokenizer s) (State.textSt [])).1).tokensRev.reverse :=
    rfl
  rw [htok, joinValues_reverse, terminate_join _ _ hs2, hj2]

/-- C1 witness: the restricted round trip at a concrete input. -/
theorem tokenize_roundtrip_restricted_witness :
    joinValues (tokenize "a-b c#:|[[x]]\n".toList) = "a-b c#:|[[x]]\n".toList :=
  tokenize_roundtrip_restricted _ (by decide)

/-- C3 counterexample: `tokenize("<!-- comment ----->")` does not return the
four claimed tokens; spaces inside the comment become separate space-run
tokens. -/
theorem comment_close_extra_dashes_not_four_tokens :
    (tokenize "<!-- comment ----->".toList).length ≠ 4 ∧
      (tokenize "<!-- comment ----->".toList).map (fun t => (t.type, t.value)) ≠
        [(TokenType.COMMENT_BEGIN, "<!--".toList),
         (TokenType.TEXT, " comment ".toList),
         (TokenType.DASHES, "---".toList),
         (TokenType.COMMENT_END, "-->".toList)] := by
  decide

/-- C3 (amended): `tokenize("<!-- comment ----->")` returns exactly the six
tokens comment-begin("<!--"), spaces(" "), text("comment"), spaces(" "),
dash-run("---"), comment-end("-->"), in that order. -/
theorem comment_close_extra_dashes_tokens :
    tokenize "<!-- comment ----->".toList =
      [Token.mk TokenType.COMMENT_BEGIN "<!--".toList 1,
       Token.mk TokenType.SPACES " ".toList 1,
       Token.mk TokenType.TEXT "comment".toList 1,
       Token.mk TokenType.SPACES " ".toList 1,
       Token.mk TokenType.DASHES "---".toList 1,
       Token.mk TokenType.COMMENT_END "-->".toList 1] := by
  decide

/-- C6: for every input string, the token sequence returned by `tokenize`
never contains two consecutive plain-text tokens: a newly emitted text token
is merged into an immediately preceding text token by `storeToken`. -/
theorem tokenize_no_consecutive_text (text : List Char) :
    (tokenize text).Chain' (fun a b => ¬(a.type = TokenType.TEXT ∧ b.type = TokenType.TEXT)) := by
  have h := runFuel_noConsecText (2 * text.length + 1) (initTokenizer text) (State.textSt [])
    (by simp [initTokenizer, NoConsecText])
  have h2 := terminate_noConsecText
    (runFuel (2 * text.length + 1) (initTokenizer text) (State.textSt [])).2
    (runFuel (2 * text.length + 1) (initTokenizer text) (State.textSt [])).1 h
  exact noConsecText_reverse _ h2

/-- C7: the cursor invariant.  `skipAheadBy` and `backUpBy` clamp the read
position silently into `[0, length]` and never fail; both preserve the
invariant that the line counter equals one plus the number of newline
characters in the consumed prefix; and the invariant holds at every reachable
state of the driving loop. -/
theorem cursor_invariant :
    (∀ (tk : Tokenizer) (n : Nat), (tk.skipAheadBy n).pos = min (tk.pos + n) tk.text.length) ∧
    (∀ (tk : Tokenizer) (n : Nat), (tk.backUpBy n).pos = tk.pos - n) ∧
    (∀ (tk : Tokenizer) (n : Nat), CursorInv tk → CursorInv (tk.skipAheadBy n)) ∧
    (∀ (tk : Tokenizer) (n : Nat), CursorInv tk → CursorInv (tk.backUpBy n)) ∧
    (∀ (text : List Char) (k : Nat),
      CursorInv (runFuel k (initTokenizer text) (State.textSt [])).1) :=
  ⟨skipAheadBy_pos, backUpBy_pos, skipAheadBy_cursorInv, backUpBy_cursorInv,
   fun text k => runFuel_cursorInv k _ _ (initTokenizer_cursorInv text)⟩

/-- C7 witness: the cursor invariant is preserved at a concrete input with a
newline, after an advance followed by a retreat. -/
theorem cursor_invariant_witness :
    CursorInv (((initTokenizer "a\nb".toList).skipAheadBy 3).backUpBy 2) :=
  cursor_invariant.2.2.2.1 _ 2
    (cursor_invariant.2.2.1 (initTokenizer "a\nb".toList) 3 (by exact ⟨by decide, by decide⟩))

/-- C8: `tokenize` is total.  The empty input yields the empty token
sequence, and for every input the driving loop consumes the whole input
within `2 * length + 1` iterations (each character is visited at most twice:
once on first read and at most once more after a single-character pushback),
so additional fuel never changes the result. -/
theorem tokenize_total :
    tokenize [] = [] ∧
    ∀ text : List Char,
      (runFuel (2 * text.length + 1) (initTokenizer text) (State.textSt [])).1.pos =
          text.length ∧
      ∀ fuel, 2 * text.length + 1 ≤ fuel →
        runFuel fuel (initTokenizer text) (State.textSt []) =
          runFuel (2 * text.length + 1) (initTokenizer text) (State.textSt []) := by
  refine ⟨by decide, fun text => ?_⟩
  have hcomp := runFuel_complete (2 * text.length + 1) (initTokenizer text) (State.textSt [])
    (by simp [initTokenizer]) (by simp [initTokenizer, State.isTextSt])
  refine ⟨hcomp.2, fun fuel hf => ?_⟩
  have hdone : ¬ (runFuel (2 * text.length + 1) (initTokenizer text) (State.textSt [])).1.pos <
      (runFuel (2 * text.length + 1) (initTokenizer text) (State.textSt [])).1.text.length := by
    rw [hcomp.1, hcomp.2]
    simp [initTokenizer]
  have hsplit : fuel = 2 * text.length + 1 + (fuel - (2 * text.length + 1)) := by omega
  rw [hsplit, runFuel_add (2 * text.length + 1) (fuel - (2 * text.length + 1)) _ _ hdone]

/-- C8 witness: the loop finishes on a concrete input within the stated
bound, and extra fuel does not change the result. -/
theorem tokenize_total_witness :
    (runFuel 7 (initTokenizer "a-b".toList) (State.textSt [])).1.pos = 3 ∧
      runFuel 99 (initTokenizer "a-b".toList) (State.textSt []) =
        runFuel 7 (initTokenizer "a-b".toList) (State.textSt []) :=
  ⟨(tokenize_total.2 "a-b".toList).1, (tokenize_total.2 "a-b".toList).2 99 (by decide)⟩

/-- C9: for every input string, every token returned by `tokenize` has a
non-empty value: no state ever emits a zero-length token, in any of its
mid-input or end-of-input paths. -/
theorem tokenize_no_empty_tokens (text : List Char) :
    ∀ t ∈ tokenize text, t.value ≠ [] := by
  have h := runFuel_noEmpty (2 * text.length + 1) (initTokenizer text) (State.textSt [])
    trivial (by intro t ht; simp [initTokenizer] at ht)
  have h2 := terminate_noEmpty
    (runFuel (2 * text.length + 1) (initTokenizer text) (State.textSt [])).2
    (runFuel (2 * text.length + 1) (initTokenizer text) (State.textSt [])).1 h.1 h.2
  intro t ht
  exact h2 t (by simpa [tokenize, List.mem_reverse] using ht)

/-- C9 witness: a token of a concrete run is non-empty. -/
theorem tokenize_no_empty_tokens_witness :
    (Token.mk TokenType.TEXT "ab".toList 1).value ≠ [] :=
  tokenize_no_empty_tokens "ab".toList (Token.mk TokenType.TEXT "ab".toList 1) (by decide)

/-- C10: a maximal quote run of length exactly one produces no token at all:
terminating the run by a non-quote character just pushes that character back
and emits nothing, terminating by end of input emits nothing, and for example
`tokenize("a\x27b")` returns the single text token "ab". -/
theorem single_quote_run_dropped :
    (∀ (tk : Tokenizer) (ch : Char), ch ≠ SingleQuoteChar →
        (State.quoteSt [SingleQuoteChar]).next ch tk = (tk.backUpBy 1, State.textSt [])) ∧
    (∀ tk : Tokenizer, (State.quoteSt [SingleQuoteChar]).terminate tk = tk) ∧
    tokenize ['a', SingleQuoteChar, 'b'] = [Token.mk TokenType.TEXT ['a', 'b'] 1] := by
  have hq : ∀ tk : Tokenizer, quoteStoreTokens tk [SingleQuoteChar] = tk := by
    intro tk
    unfold quoteStoreTokens
    norm_num
  refine ⟨?_, ?_, by decide⟩
  · intro tk ch hch
    simp only [State.next]
    split
    · exact absurd rfl hch
    · rw [hq]
  · intro tk
    simp only [State.terminate]
    exact hq tk

/-- C10 witness: the pushback equation at a concrete tokenizer and
character. -/
theorem single_quote_run_dropped_witness :
    (State.quoteSt [SingleQuoteChar]).next 'b' (initTokenizer ['a', SingleQuoteChar, 'b']) =
      ((initTokenizer ['a', SingleQuoteChar, 'b']).backUpBy 1, State.textSt []) :=
  single_quote_run_dropped.1 _ 'b' (by decide)

/-- C2: the quote-run rule table.  A quote run is ended by a non-quote
character, which is pushed back; for a run of length `n ≥ 2` the emitted
tokens are (in order): a single text token of `n - 5` literal quotes when
`n > 5` (one quote when `n = 4`, none otherwise), then a bold toggle when
`n ≥ 3`, then an italic toggle when `n = 2` or `n ≥ 5`; the four concrete
examples of the spec follow. -/
theorem quote_run_rule :
    (∀ (tk : Tokenizer) (v : List Char) (ch : Char), ch ≠ SingleQuoteChar →
        (State.quoteSt v).next ch tk =
          ((quoteStoreTokens tk v).backUpBy 1, State.textSt [])) ∧
    (∀ (tk : Tokenizer) (n : Nat), 2 ≤ n →
        (∀ t, tk.tokensRev.head? = some t → t.type ≠ TokenType.TEXT) →
        (quoteStoreTokens tk (List.replicate n SingleQuoteChar)).tokensRev =
          (if n = 2 ∨ 5 ≤ n then [Token.mk TokenType.ITALIC ItalicMarker tk.lineNum] else []) ++
          (if 3 ≤ n then [Token.mk TokenType.BOLD BoldMarker tk.lineNum] else []) ++
          (if 5 < n then
            [Token.mk TokenType.TEXT (List.replicate (n - 5) SingleQuoteChar) tk.lineNum]
          else if n = 4 then [Token.mk TokenType.TEXT [SingleQuoteChar] tk.lineNum]
          else []) ++
          tk.tokensRev) ∧
    tokenize (List.replicate 2 SingleQuoteChar ++ "italic".toList ++
        List.replicate 2 SingleQuoteChar) =
      [Token.mk TokenType.ITALIC ItalicMarker 1,
       Token.mk TokenType.TEXT "italic".toList 1,
       Token.mk TokenType.ITALIC ItalicMarker 1] ∧
    tokenize (List.replicate 3 SingleQuoteChar ++ "bold".toList ++
        List.replicate 3 SingleQuoteChar) =
      [Token.mk TokenType.BOLD BoldMarker 1,
       Token.mk TokenType.TEXT "bold".toList 1,
       Token.mk TokenType.BOLD BoldMarker 1] ∧
    tokenize (List.replicate 4 SingleQuoteChar ++ "four".toList ++
        List.replicate 4 SingleQuoteChar) =
      [Token.mk TokenType.TEXT [SingleQuoteChar] 1,
       Token.mk TokenType.BOLD BoldMarker 1,
       Token.mk TokenType.TEXT ("four".toList ++ [SingleQuoteChar]) 1,
       Token.mk TokenType.BOLD BoldMarker 1] ∧
    tokenize (List.replicate 5 SingleQuoteChar ++ "five".toList ++
        List.replicate 5 SingleQuoteChar) =
      [Token.mk TokenType.BOLD BoldMarker 1,
       Token.mk TokenType.ITALIC ItalicMarker 1,
       Token.mk TokenType.TEXT "five".toList 1,
       Token.mk TokenType.BOLD BoldMarker 1,
       Token.mk TokenType.ITALIC ItalicMarker 1] := by
  refine ⟨?_, ?_, by decide, by decide, by decide, by decide⟩
  · intro tk v ch hch
    simp only [State.next]
    split
    · exact absurd rfl hch
    · rfl
  · intro tk n hn hhead
    by_cases h2 : n = 2
    · subst h2
      unfold quoteStoreTokens
      norm_num
      rw [storeToken_cons_of_ne_text _ _ _ (by decide)]
    · by_cases h3 : n = 3
      · subst h3
        unfold quoteStoreTokens
        norm_num
        rw [storeToken_cons_of_ne_text _ _ _ (by decide)]
      · by_cases h4 : n = 4
        · subst h4
          unfold quoteStoreTokens
          norm_num
          rw [storeToken_cons_of_ne_text _ _ _ (by decide),
            storeToken_text_cons tk _ hhead]
          simp
        · by_cases h5 : n = 5
          · subst h5
            unfold quoteStoreTokens
            norm_num
            rw [storeToken_cons_of_ne_text _ _ _ (by decide),
              storeToken_cons_of_ne_text _ _ _ (by decide)]
            simp
          · have h6 : 5 < n := by omega
            unfold quoteStoreTokens
            dsimp only
            simp only [List.length_replicate]
            rw [if_pos (show n > 3 + 2 by omega)]
            rw [if_pos (show n - (3 + 2) > 0 by omega)]
            rw [if_pos (show n ≥ 3 by omega)]
            rw [if_pos (show n = 2 ∨ n ≥ 3 + 2 by omega)]
            rw [if_pos (show n = 2 ∨ 5 ≤ n by omega)]
            rw [if_pos (show 3 ≤ n by omega)]
            rw [if_pos (show 5 < n by omega)]
            rw [storeToken_cons_of_ne_text _ _ _ (by decide),
              storeToken_cons_of_ne_text _ _ _ (by decide),
              storeToken_text_cons tk _ hhead]
            simp

/-- C2 witness: the rule table at run length 7 on an empty buffer. -/
theorem quote_run_rule_witness :
    (quoteStoreTokens (initTokenizer []) (List.replicate 7 SingleQuoteChar)).tokensRev =
      [Token.mk TokenType.ITALIC ItalicMarker 1,
       Token.mk TokenType.BOLD BoldMarker 1,
       Token.mk TokenType.TEXT (List.replicate 2 SingleQuoteChar) 1] := by
  have h := quote_run_rule.2.1 (initTokenizer []) 7 (by omega)
    (by intro t ht; simp [initTokenizer] at ht)
  simpa using h

/-- C4: when tag recognition stops because the candidate plus the next
character is no longer a prefix of any known tag name, the accumulated name
is tested exactly: a recognized name emits the open-tag marker followed by a
tag-name token holding the normalized name, an unrecognized one emits the
whole accumulated text as one plain-text token, and in both cases the failing
character is pushed back; `tokenize("<code>")` and `tokenize("<invalid>")`
behave as claimed. -/
theorem tag_stop_rule :
    (∀ (tk : Tokenizer) (name : List Char) (ch : Char),
        isHtmlOrExtensionTagPrefix (name ++ [ch]) = false →
        ((isHtmlOrExtensionTag name = true →
            (State.htmlStartSt (AngleOpenChar :: name)).next ch tk =
              (((tk.storeToken TokenType.OPEN_START_TAG [AngleOpenChar]).storeToken
                  TokenType.TAG_NAME (normalizeTagName name)).backUpBy 1, State.textSt [])) ∧
          (isHtmlOrExtensionTag name = false →
            (State.htmlStartSt (AngleOpenChar :: name)).next ch tk =
              ((tk.storeToken TokenType.TEXT (AngleOpenChar :: name)).backUpBy 1,
                State.textSt [])))) ∧
    (∀ (tk : Tokenizer) (name : List Char) (ch : Char),
        isHtmlOrExtensionTagPrefix (name ++ [ch]) = false →
        ((isHtmlOrExtensionTag name = true →
            (State.htmlEndSt (AngleOpenChar :: SlashChar :: name)).next ch tk =
              (((tk.storeToken TokenType.OPEN_END_TAG EndTagBeginMarker).storeToken
                  TokenType.TAG_NAME (normalizeTagName name)).backUpBy 1, State.textSt [])) ∧
          (isHtmlOrExtensionTag name = false →
            (State.htmlEndSt (AngleOpenChar :: SlashChar :: name)).next ch tk =
              ((tk.storeToken TokenType.TEXT
                  (AngleOpenChar :: SlashChar :: name)).backUpBy 1,
                State.textSt [])))) ∧
    tokenize "<code>".toList =
      [Token.mk TokenType.OPEN_START_TAG [AngleOpenChar] 1,
       Token.mk TokenType.TAG_NAME "code".toList 1,
       Token.mk TokenType.CLOSE_TAG [AngleCloseChar] 1] ∧
    tokenize "<invalid>".toList =
      [Token.mk TokenType.TEXT "<invalid".toList 1,
       Token.mk TokenType.CLOSE_TAG [AngleCloseChar] 1] := by
  refine ⟨?_, ?_, by decide, by decide⟩
  · intro tk name ch hfail
    have hname : htmlStartTagName (AngleOpenChar :: name) = name := rfl
    constructor
    · intro htag
      simp [State.next, hname, hfail, htmlStartStoreTokens, htag]
    · intro htag
      simp [State.next, hname, hfail, htmlStartStoreTokens, htag]
  · intro tk name ch hfail
    have hname : htmlEndTagName (AngleOpenChar :: SlashChar :: name) = name := rfl
    constructor
    · intro htag
      simp [State.next, hname, hfail, htmlEndStoreTokens, htag, EndTagBeginMarker]
    · intro htag
      simp [State.next, hname, hfail, htmlEndStoreTokens, htag]

/-- C4 witness: the stop rule applied to the recognized name "code" and to
the unrecognized name "inv" at concrete inputs. -/
theorem tag_stop_rule_witness :
    (State.htmlStartSt (AngleOpenChar :: "code".toList)).next '>' (initTokenizer []) =
      ((((initTokenizer []).storeToken TokenType.OPEN_START_TAG [AngleOpenChar]).storeToken
          TokenType.TAG_NAME (normalizeTagName "code".toList)).backUpBy 1, State.textSt []) ∧
    (State.htmlStartSt (AngleOpenChar :: "inv".toList)).next 'q' (initTokenizer []) =
      (((initTokenizer []).storeToken TokenType.TEXT
          (AngleOpenChar :: "inv".toList)).backUpBy 1, State.textSt []) :=
  ⟨(tag_stop_rule.1 (initTokenizer []) "code".toList '>' (by decide)).1 (by decide),
   (tag_stop_rule.1 (initTokenizer []) "inv".toList 'q' (by decide)).2 (by decide)⟩

/-- C5: a dash run terminated by `>` attempts the comment-close resolution:
when the run (with the `>`) ends in the marker `-->`, any dashes before the
marker are emitted as a dash-run token only when non-empty, followed by a
comment-end token; otherwise (a single dash) the dashes without the `>` are
emitted as a dash-run token followed by a standalone close-angle token; no
pushback happens in either case. -/
theorem dash_run_close_angle_rule :
    (∀ (tk : Tokenizer) (n : Nat), 2 ≤ n →
      ((State.dashSt (List.replicate n DashChar)).next AngleCloseChar tk).2 =
          State.textSt [] ∧
        ((State.dashSt (List.replicate n DashChar)).next AngleCloseChar tk).1.pos = tk.pos ∧
        ((State.dashSt (List.replicate n DashChar)).next AngleCloseChar tk).1.tokensRev =
          Token.mk TokenType.COMMENT_END CommentEndMarker tk.lineNum ::
            ((if 2 < n then
                [Token.mk TokenType.DASHES (List.replicate (n - 2) DashChar) tk.lineNum]
              else []) ++ tk.tokensRev)) ∧
    (∀ tk : Tokenizer,
      ((State.dashSt [DashChar]).next AngleCloseChar tk).2 = State.textSt [] ∧
        ((State.dashSt [DashChar]).next AngleCloseChar tk).1.pos = tk.pos ∧
        ((State.dashSt [DashChar]).next AngleCloseChar tk).1.tokensRev =
          Token.mk TokenType.CLOSE_TAG [AngleCloseChar] tk.lineNum ::
            Token.mk TokenType.DASHES [DashChar] tk.lineNum :: tk.tokensRev) := by
  constructor
  · intro tk n hn
    have hnext : (State.dashSt (List.replicate n DashChar)).next AngleCloseChar tk =
        (dashStoreClosingAngle tk (List.replicate n DashChar ++ [AngleCloseChar]),
          State.textSt []) := rfl
    rw [hnext]
    refine ⟨rfl, by simp, ?_⟩
    have hdec : List.replicate n DashChar ++ [AngleCloseChar] =
        List.replicate (n - 2) DashChar ++ CommentEndMarker := by
      conv_lhs => rw [show n = (n - 2) + 2 from by omega]
      rw [List.replicate_add]
      simp [CommentEndMarker, List.append_assoc]
    unfold dashStoreClosingAngle
    dsimp only
    rw [hdec]
    rw [if_pos (List.isSuffixOf_iff_suffix.mpr ⟨List.replicate (n - 2) DashChar, rfl⟩)]
    have hlen : (List.replicate (n - 2) DashChar ++ CommentEndMarker).length -
        CommentEndMarker.length = n - 2 := by
      simp [CommentEndMarker]
    rw [hlen, List.take_left' (by simp)]
    by_cases h3 : 2 < n
    · rw [if_pos (by simp [List.replicate_eq_nil_iff]; omega)]
      rw [storeToken_cons_of_ne_text _ _ _ (by decide),
        storeToken_cons_of_ne_text _ _ _ (by decide)]
      simp [h3]
    · have hn2 : n = 2 := by omega
      subst hn2
      norm_num
      rw [storeToken_cons_of_ne_text _ _ _ (by decide)]
  · intro tk
    have hnext : (State.dashSt [DashChar]).next AngleCloseChar tk =
        (dashStoreClosingAngle tk ([DashChar] ++ [AngleCloseChar]), State.textSt []) := rfl
    rw [hnext]
    refine ⟨rfl, by simp, ?_⟩
    unfold dashStoreClosingAngle
    dsimp only
    rw [if_neg (by decide)]
    rw [show ([DashChar] ++ [AngleCloseChar]).length - 1 = 1 from by simp]
    rw [show ([DashChar] ++ [AngleCloseChar]).take 1 = [DashChar] from by decide]
    rw [storeToken_cons_of_ne_text _ _ _ (by decide),
      storeToken_cons_of_ne_text _ _ _ (by decide)]
    simp

/-- C5 witness: the comment-close resolution at run length 5 (three leading
dashes kept as a dash-run) and at run length 1 (dash plus standalone close
angle), on an empty buffer. -/
theorem dash_run_close_angle_rule_witness :
    ((State.dashSt (List.replicate 5 DashChar)).next AngleCloseChar (initTokenizer [])).1.tokensRev =
      [Token.mk TokenType.COMMENT_END CommentEndMarker 1,
       Token.mk TokenType.DASHES (List.replicate 3 DashChar) 1] ∧
    ((State.dashSt [DashChar]).next AngleCloseChar (initTokenizer [])).1.tokensRev =
      [Token.mk TokenType.CLOSE_TAG [AngleCloseChar] 1,
       Token.mk TokenType.DASHES [DashChar] 1] := by
  constructor
  · have h := (dash_run_close_angle_rule.1 (initTokenizer []) 5 (by omega)).2.2
    simpa [initTokenizer] using h
  · have h := (dash_run_close_angle_rule.2 (initTokenizer [])).2.2
    simpa [initTokenizer] using h

end Wikitext
